import Mathlib

set_option maxRecDepth 8000

/-!
Shallow embedding of the LBR trace-state subsystem of `src/lkm/src/libiht_lkm.c`
(libiht Linux kernel module).  The intrusive circular doubly-linked list of
`struct lbr_state` records is modelled by an explicit heap: an association list
from addresses (`Nat`) to node records, together with the global list head
pointer `lbr_state_list` and bookkeeping of allocated and freed addresses.
`kfree` only marks an address freed; the record stays readable, which models
the most benign possible behaviour of the C code's reads of freed memory.
Recursive and looping code is fuel-metered: a `none` result means the fuel ran
out, and a function that returns `none` for every fuel diverges.
-/

/-- One `(from, to)` branch record pair, `struct lbr_stack_entry`. -/
structure LbrStackEntry where
  fromAddr : Nat
  toAddr : Nat
deriving Repr, DecidableEq, Inhabited

/-- The per-process record `struct lbr_state`: intrusive `prev`/`next` links,
the `parent` back-reference, the traced `pid`, and the saved register snapshot
(`lbr_select`, `lbr_tos`, `entries`).  Field layout read off the uses in
`libiht_lkm.c` (the header with the declaration is not in the sources). -/
structure LbrState where
  prev : Nat
  next : Nat
  parent : Option Nat
  pid : Nat
  lbr_select : Nat
  lbr_tos : Nat
  entries : List LbrStackEntry
deriving Repr, DecidableEq, Inhabited

/-- The global state of the trace-state store: the heap `mem` (newest binding
first), the ever-allocated addresses `alloc` in allocation order, the freed
addresses `freed`, the global head pointer `lbr_state_list` (`head`), and the
next fresh address. -/
structure Store where
  mem : List (Nat × LbrState)
  alloc : List Nat
  freed : List Nat
  head : Option Nat
  nextAddr : Nat
deriving Repr, DecidableEq, Inhabited

/-- The empty store: `lbr_state_list = NULL`, nothing allocated. -/
def emptyStore : Store :=
  { mem := [], alloc := [], freed := [], head := none, nextAddr := 0 }

/-- Dereference an address.  Unallocated addresses read as the zero record;
freed addresses still read their last written contents (benign model of the
C code's use-after-free reads). -/
def readNode (s : Store) (a : Nat) : LbrState :=
  (s.mem.lookup a).getD default

/-- Write a node record at an address (newest binding shadows older ones). -/
def updateNode (s : Store) (a : Nat) (g : LbrState → LbrState) : Store :=
  { s with mem := (a, g (readNode s a)) :: s.mem }

/-- Write only the `prev` link of the node at `a`. -/
def writePrev (s : Store) (a v : Nat) : Store :=
  updateNode s a (fun nd => { nd with prev := v })

/-- Write only the `next` link of the node at `a`. -/
def writeNext (s : Store) (a v : Nat) : Store :=
  updateNode s a (fun nd => { nd with next := v })

/-- `kmalloc` + `memset 0` + field setup, as performed by `create_lbr_state`
and the ENABLE_TRACE branch of `device_ioctl`: place the given record at the
next fresh address. -/
def allocNode (s : Store) (nd : LbrState) : Store :=
  { s with
    mem := (s.nextAddr, nd) :: s.mem
    alloc := s.alloc ++ [s.nextAddr]
    nextAddr := s.nextAddr + 1 }

/-- `kfree`: mark the address freed.  The record stays readable (see above). -/
def freeNode (s : Store) (a : Nat) : Store :=
  { s with freed := a :: s.freed }

/-- The addresses of the live (allocated and not freed) entries. -/
def liveAddrs (s : Store) : List Nat :=
  s.alloc.filter (fun a => !(s.freed.contains a))

/-- Assign the global head pointer `lbr_state_list`. -/
def setHead (s : Store) (o : Option Nat) : Store :=
  { s with head := o }

/-- `insert_lbr_state`: append the (freshly created) record at the logical
tail of the circular list.  Empty list: the new node becomes the sole member,
linked to itself.  Otherwise `head->prev->next = new; new->prev = head->prev;
head->prev = new; new->next = head`, in source order. -/
def insert_lbr_state (s : Store) (nd : LbrState) : Store :=
  let na := s.nextAddr
  let s0 := allocNode s nd
  match s0.head with
  | none =>
      let s1 := writePrev s0 na na
      let s2 := writeNext s1 na na
      setHead s2 (some na)
  | some head =>
      let hp := (readNode s0 head).prev
      let s1 := writeNext s0 hp na
      let s2 := writePrev s1 na hp
      let s3 := writePrev s2 head na
      let s4 := writeNext s3 na head
      s4

/-- The head-pointer update step of `remove_lbr_state`: if the victim is the
head, advance `lbr_state_list` to the victim's successor, or to `NULL` when
the victim is self-linked. -/
def headAdjust (s : Store) (x : Nat) : Store :=
  if s.head = some x then
    { s with
      head := if (readNode s x).next = x then none
              else some ((readNode s x).next) }
  else s

/-- The head-pointer update and unlink steps of `remove_lbr_state`:
after the head adjustment, `old->prev->next = old->next;
old->next->prev = old->prev`. -/
def removeUnlink (s : Store) (x : Nat) : Store :=
  let s1 := headAdjust s x
  let p := (readNode s1 x).prev
  let n := (readNode s1 x).next
  writePrev (writeNext s1 p n) n p

mutual

/-- `remove_lbr_state`, fuel-metered.  Mirrors the source: early return when
the list head is `NULL`; unlink; if the list is now non-empty, scan it for
children (`removeScan`); finally `kfree` the victim.  `none` = out of fuel. -/
def remove_lbr_state : Nat → Store → Nat → Option Store
  | 0, _, _ => none
  | fuel + 1, s, x =>
    match s.head with
    | none => some s
    | some _ =>
      let s3 := removeUnlink s x
      match s3.head with
      | none => some (freeNode s3 x)
      | some h2 =>
        match remove_lbr_state.go fuel s3 x h2 with
        | none => none
        | some s4 => some (freeNode s4 x)

/-- The child-scan do-while loop of `remove_lbr_state`: starting at the
current head, recursively remove every entry whose `parent` equals the victim,
stepping through `prev` links until the cursor compares equal to the current
value of `lbr_state_list`. -/
def remove_lbr_state.go : Nat → Store → Nat → Nat → Option Store
  | 0, _, _, _ => none
  | fuel + 1, s, x, tmp =>
    match (if (readNode s tmp).parent = some x then remove_lbr_state fuel s tmp
           else some s) with
    | none => none
    | some s1 =>
      let tmp2 := (readNode s1 tmp).prev
      if s1.head = some tmp2 then some s1
      else remove_lbr_state.go fuel s1 x tmp2

end

/-- The do-while loop of `find_lbr_state`: compare `pid` at the cursor, step
backward through `prev`, stop when the cursor compares equal to the head.
`some (some a)` = found at `a`; `some none` = not found; `none` = fuel ran
out (the loop did not terminate within `fuel` steps). -/
def findLoop : Nat → Store → Nat → Nat → Option (Option Nat)
  | 0, _, _, _ => none
  | fuel + 1, s, pid, tmp =>
    if (readNode s tmp).pid = pid then some (some tmp)
    else
      let tmp2 := (readNode s tmp).prev
      if s.head = some tmp2 then some none
      else findLoop fuel s pid tmp2

/-- `find_lbr_state`: backward traversal from the head comparing `pid`. -/
def find_lbr_state (fuel : Nat) (s : Store) (pid : Nat) : Option (Option Nat) :=
  match s.head with
  | none => some none
  | some h => findLoop fuel s pid h

/-- The hardware LBR register file of the current CPU: `MSR_LBR_SELECT`,
`MSR_LBR_TOS`, `MSR_IA32_DEBUGCTLMSR`, and the `MSR_LBR_NHM_FROM + i` /
`MSR_LBR_NHM_TO + i` banks. -/
structure Hw where
  lbrSelect : Nat
  lbrTos : Nat
  debugCtl : Nat
  fromRegs : List Nat
  toRegs : List Nat
deriving Repr, DecidableEq, Inhabited

/-- The snapshot taken by `get_lbr`: read `MSR_LBR_SELECT`, `MSR_LBR_TOS` and
`lbr_capacity` register pairs into the node record. -/
def snapOf (cap : Nat) (hw : Hw) (nd : LbrState) : LbrState :=
  { nd with
    lbr_select := hw.lbrSelect
    lbr_tos := hw.lbrTos
    entries := (List.range cap).map
      (fun i => { fromAddr := hw.fromRegs.getD i 0, toAddr := hw.toRegs.getD i 0 }) }

/-- `get_lbr pid`: look the state up by pid; on a miss do nothing; otherwise
store the hardware registers into the entry. -/
def get_lbr (fuel cap : Nat) (s : Store) (hw : Hw) (pid : Nat) : Option Store :=
  match find_lbr_state fuel s pid with
  | none => none
  | some none => some s
  | some (some a) => some (updateNode s a (snapOf cap hw))

/-- `put_lbr pid`: look the state up by pid; on a miss do nothing; otherwise
write the entry's saved snapshot into the hardware registers. -/
def put_lbr (fuel cap : Nat) (s : Store) (hw : Hw) (pid : Nat) : Option Hw :=
  match find_lbr_state fuel s pid with
  | none => none
  | some none => some hw
  | some (some a) =>
    let nd := readNode s a
    some { hw with
      lbrSelect := nd.lbr_select
      lbrTos := nd.lbr_tos
      fromRegs := (List.range cap).map (fun i => (nd.entries.getD i default).fromAddr)
      toRegs := (List.range cap).map (fun i => (nd.entries.getD i default).toAddr) }

/-- `save_lbr` (context-switch leave): if the outgoing pid is traced, read the
hardware registers into its entry via `get_lbr`.  The spinlock section is not
modelled; the claims here are sequential. -/
def save_lbr (fuel cap : Nat) (s : Store) (hw : Hw) (pid : Nat) : Option Store :=
  match find_lbr_state fuel s pid with
  | none => none
  | some none => some s
  | some (some _) => get_lbr fuel cap s hw pid

/-- `restore_lbr` (context-switch enter): if the incoming pid is traced, write
its saved snapshot back to the hardware registers via `put_lbr`. -/
def restore_lbr (fuel cap : Nat) (s : Store) (hw : Hw) (pid : Nat) : Option Hw :=
  match find_lbr_state fuel s pid with
  | none => none
  | some none => some hw
  | some (some _) => put_lbr fuel cap s hw pid

/-- `dump_lbr pid`: look up the state; on a miss just log and return (the
surrounding ioctl still reports success); otherwise `get_lbr` refreshes the
snapshot from the hardware and the contents are printed. -/
def dump_lbr (fuel cap : Nat) (s : Store) (hw : Hw) (pid : Nat) : Option Store :=
  match find_lbr_state fuel s pid with
  | none => none
  | some none => some s
  | some (some _) => get_lbr fuel cap s hw pid

/-- Modelled from the spec: the four ioctl operation codes
`LIBIHT_LKM_IOC_{ENABLE_TRACE, DISABLE_TRACE, DUMP_LBR, SELECT_LBR}` declared
in the missing header `libiht_lkm.h`; their concrete numeric values are
immaterial, only their distinctness. `other` stands for any unrecognized
code. -/
inductive IoctlCmd where
  | enableTrace
  | disableTrace
  | dumpLbr
  | selectLbr
  | other (code : Nat)
deriving Repr, DecidableEq

/-- Modelled from the spec: `struct ioctl_request` from the missing header;
the dispatcher reads exactly the fields `lbr_select` and `pid`. -/
structure IoctlRequest where
  lbr_select : Nat
  pid : Nat
deriving Repr, DecidableEq, Inhabited

/-- Outcome of `copy_from_user` on the request: a full copy carrying the
request, or a short/partial transfer (nonzero remainder). -/
inductive CopyOutcome where
  | ok (req : IoctlRequest)
  | shortCopy
deriving Repr, DecidableEq

/-- `device_ioctl`, the control-plane dispatcher.  Parameters: `fuel` for the
fuel-metered list loops, `cap` = `lbr_capacity`, `dflt` = the documented
default selection mask `LBR_SELECT` (value from the missing header, immaterial
here), `cur` = `current->pid`, the command, the `copy_from_user` outcome, and
the raw `ioctl_param` (whose value is reused as the new mask by SELECT_LBR).
Returns the status together with the resulting store and hardware state;
`none` = a list loop ran out of fuel.  `-22` is `-EINVAL`. -/
def device_ioctl (fuel cap dflt cur : Nat) (cmd : IoctlCmd)
    (copy : CopyOutcome) (ioctl_param : Nat) (s : Store) (hw : Hw) :
    Option (Int × Store × Hw) :=
  match copy with
  | CopyOutcome.shortCopy => some (-1, s, hw)
  | CopyOutcome.ok req =>
    match cmd with
    | IoctlCmd.enableTrace =>
      let nd : LbrState :=
        { prev := 0, next := 0
          parent := none
          pid := if req.pid ≠ 0 then req.pid else cur
          lbr_select := if req.lbr_select ≠ 0 then req.lbr_select else dflt
          lbr_tos := 0
          entries := List.replicate cap default }
      let s1 := insert_lbr_state s nd
      match put_lbr fuel cap s1 hw req.pid with
      | none => none
      | some hw1 => some (0, s1, hw1)
    | IoctlCmd.disableTrace =>
      match find_lbr_state fuel s req.pid with
      | none => none
      | some none => some (-22, s, hw)
      | some (some a) =>
        match remove_lbr_state fuel s a with
        | none => none
        | some s1 => some (0, s1, hw)
    | IoctlCmd.dumpLbr =>
      match dump_lbr fuel cap s hw req.pid with
      | none => none
      | some s1 => some (0, s1, hw)
    | IoctlCmd.selectLbr =>
      match find_lbr_state fuel s req.pid with
      | none => none
      | some none => some (-22, s, hw)
      | some (some a) =>
        let s1 := updateNode s a (fun nd => { nd with lbr_select := ioctl_param })
        match put_lbr fuel cap s1 hw req.pid with
        | none => none
        | some hw1 => some (0, s1, hw1)
    | IoctlCmd.other _ => some (-22, s, hw)

/-- The teardown loop of `libiht_lkm_exit`: `tmp = lbr_state_list;
do { kfree(tmp); tmp = tmp->prev; } while (tmp != lbr_state_list);`.
The boolean accumulates whether a field of an already-freed entry was read;
the loop reads `tmp->prev` immediately after `kfree(tmp)`, so the flag records
exactly those use-after-free reads. -/
def exitLoop : Nat → Store → Nat → Bool → Option (Store × Bool)
  | 0, _, _, _ => none
  | fuel + 1, s, tmp, bad =>
    let s1 := freeNode s tmp
    let bad1 := bad || s1.freed.contains tmp
    let tmp2 := (readNode s1 tmp).prev
    if s1.head = some tmp2 then some (s1, bad1)
    else exitLoop fuel s1 tmp2 bad1

/-- The state-list teardown of `libiht_lkm_exit`: free every entry of the
circular list without any cascading-parent scan.  Returns the final store and
whether any field of a freed entry was read on the way. -/
def libiht_lkm_exit (fuel : Nat) (s : Store) : Option (Store × Bool) :=
  match s.head with
  | none => some (s, false)
  | some h => exitLoop fuel s h false

/-!
Concrete stores used as counterexamples, failing inputs and witnesses.
-/

/-- A fresh `lbr_state` record as ENABLE_TRACE or the (intended) fork path
would create it, before linking: given pid and parent, snapshot zeroed. -/
def mkSt (pid : Nat) (parent : Option Nat) : LbrState :=
  { prev := 0, next := 0, parent := parent, pid := pid, lbr_select := 0,
    lbr_tos := 0, entries := [] }

/-- Store with entry `e1` = pid 1 at address 0 and its child `e2` = pid 2
(parent = address 0) at address 1. -/
def sC1 : Store :=
  insert_lbr_state (insert_lbr_state emptyStore (mkSt 1 none)) (mkSt 2 (some 0))

/-- The store `sC1` after `remove_lbr_state` has updated the head and unlinked
address 0: head is address 1, which is self-linked. -/
def sC1a : Store := removeUnlink sC1 0

/-- The store seen by the child scan of `remove_lbr_state sC1 0` after the
cascade removed the child at address 1: `lbr_state_list` is `NULL`. -/
def sC1b : Store := freeNode (removeUnlink sC1a 1) 1

/-- Store with entry pid 1 at address 0 and two children pid 2 (address 1)
and pid 3 (address 2), both with parent = address 0. -/
def sC2 : Store := insert_lbr_state sC1 (mkSt 3 (some 0))

/-- Store with a single entry, pid 5, at address 0. -/
def sH : Store := insert_lbr_state emptyStore (mkSt 5 none)

/-- Store with two parentless entries: pid 1 at address 0, pid 2 at
address 1. -/
def sW2 : Store :=
  insert_lbr_state (insert_lbr_state emptyStore (mkSt 1 none)) (mkSt 2 none)

/-- A concrete hardware register file with capacity 2 and distinctive
values. -/
def hwC : Hw :=
  { lbrSelect := 11, lbrTos := 4, debugCtl := 9, fromRegs := [5, 6],
    toRegs := [7, 8] }

/-!
Helper lemmas about the heap primitives.
-/

theorem readNode_updateNode (s : Store) (a b : Nat) (g : LbrState → LbrState) :
    readNode (updateNode s a g) b = if b = a then g (readNode s a) else readNode s b := by
  by_cases h : b = a
  · subst h; simp [readNode, updateNode, List.lookup]
  · have hb : (b == a) = false := beq_eq_false_iff_ne.mpr h
    simp [readNode, updateNode, List.lookup, h, hb]

theorem head_updateNode (s : Store) (a : Nat) (g : LbrState → LbrState) :
    (updateNode s a g).head = s.head := rfl

theorem readNode_freeNode (s : Store) (x b : Nat) :
    readNode (freeNode s x) b = readNode s b := rfl

theorem head_freeNode (s : Store) (x : Nat) : (freeNode s x).head = s.head := rfl

theorem pid_writePrev (s : Store) (a v b : Nat) :
    (readNode (writePrev s a v) b).pid = (readNode s b).pid := by
  rw [writePrev, readNode_updateNode]; split <;> simp_all

theorem pid_writeNext (s : Store) (a v b : Nat) :
    (readNode (writeNext s a v) b).pid = (readNode s b).pid := by
  rw [writeNext, readNode_updateNode]; split <;> simp_all

theorem parent_writePrev (s : Store) (a v b : Nat) :
    (readNode (writePrev s a v) b).parent = (readNode s b).parent := by
  rw [writePrev, readNode_updateNode]; split <;> simp_all

theorem parent_writeNext (s : Store) (a v b : Nat) :
    (readNode (writeNext s a v) b).parent = (readNode s b).parent := by
  rw [writeNext, readNode_updateNode]; split <;> simp_all

theorem prev_writeNext (s : Store) (a v b : Nat) :
    (readNode (writeNext s a v) b).prev = (readNode s b).prev := by
  rw [writeNext, readNode_updateNode]; split <;> simp_all

theorem next_writePrev (s : Store) (a v b : Nat) :
    (readNode (writePrev s a v) b).next = (readNode s b).next := by
  rw [writePrev, readNode_updateNode]; split <;> simp_all

theorem prev_writePrev (s : Store) (a v b : Nat) :
    (readNode (writePrev s a v) b).prev = if b = a then v else (readNode s b).prev := by
  rw [writePrev, readNode_updateNode]; split <;> simp_all

theorem next_writeNext (s : Store) (a v b : Nat) :
    (readNode (writeNext s a v) b).next = if b = a then v else (readNode s b).next := by
  rw [writeNext, readNode_updateNode]; split <;> simp_all

theorem readNode_allocNode (s : Store) (nd : LbrState) (b : Nat) :
    readNode (allocNode s nd) b = if b = s.nextAddr then nd else readNode s b := by
  by_cases h : b = s.nextAddr
  · subst h; simp [readNode, allocNode, List.lookup]
  · have hb : (b == s.nextAddr) = false := beq_eq_false_iff_ne.mpr h
    simp [readNode, allocNode, List.lookup, h, hb]

/-- A traversal-confinement lemma for the backward search loop: if the cursor
lies in a set of addresses that is closed under `prev` links and does not
contain `e`, the loop can never answer `e`. -/
theorem findLoop_closed (S : List Nat) (s : Store) (p e : Nat)
    (he : e ∉ S) (hcl : ∀ a ∈ S, (readNode s a).prev ∈ S) :
    ∀ f tmp, tmp ∈ S → findLoop f s p tmp ≠ some (some e) := by
  intro f
  induction f with
  | zero => intro tmp _; simp [findLoop]
  | succ f ih =>
    intro tmp htmp
    by_cases hp : (readNode s tmp).pid = p
    · simp only [findLoop, if_pos hp]
      intro hcontra
      have : tmp = e := by
        simpa using hcontra
      exact he (this ▸ htmp)
    · simp only [findLoop, if_neg hp]
      by_cases hh : s.head = some ((readNode s tmp).prev)
      · simp [hh]
      · simp only [if_neg hh]
        exact ih _ (hcl tmp htmp)

/-- `find_lbr_state` never answers an address outside a `prev`-closed set of
addresses containing the head. -/
theorem find_lbr_state_closed (S : List Nat) (s : Store) (p e : Nat)
    (he : e ∉ S) (hcl : ∀ a ∈ S, (readNode s a).prev ∈ S)
    (hhead : ∀ h, s.head = some h → h ∈ S) :
    ∀ f, find_lbr_state f s p ≠ some (some e) := by
  intro f
  unfold find_lbr_state
  cases hh : s.head with
  | none => simp
  | some h => exact findLoop_closed S s p e he hcl f h (hhead h hh)

/-- When no entry's `parent` field references the victim, the child scan of
`remove_lbr_state` matches nothing and is read-only: it either runs out of
fuel or returns the store unchanged. -/
theorem go_nomatch (s : Store) (x : Nat)
    (hpar : ∀ a, (readNode s a).parent ≠ some x) :
    ∀ g tmp, remove_lbr_state.go g s x tmp = none ∨
      remove_lbr_state.go g s x tmp = some s := by
  intro g
  induction g with
  | zero => intro tmp; left; rfl
  | succ g ih =>
    intro tmp
    rw [remove_lbr_state.go, if_neg (hpar tmp)]
    by_cases hh : s.head = some ((readNode s tmp).prev)
    · right; simp [hh]
    · simp only [if_neg hh]
      exact ih _

/-- In the post-cascade store `sC1b` the head is `NULL` while the cursor sits
on the freed child at address 1, which is its own `prev`: every iteration of
the child-scan loop leaves the state unchanged, so the loop consumes any
amount of fuel. -/
theorem goC1b : ∀ g, remove_lbr_state.go g sC1b 0 1 = none := by
  intro g
  induction g with
  | zero => rfl
  | succ g ih =>
    cases g with
    | zero => rfl
    | succ g' =>
      have step : remove_lbr_state.go (g' + 1 + 1) sC1b 0 1
          = remove_lbr_state.go (g' + 1) sC1b 0 1 := rfl
      rw [step]
      exact ih

/-- The child scan launched by `remove_lbr_state sC1 0` removes the child at
address 1 on its first iteration (reaching `sC1b`, with a `NULL` head) and
then loops forever. -/
theorem goC1a : ∀ g, remove_lbr_state.go g sC1a 0 1 = none := by
  intro g
  cases g with
  | zero => rfl
  | succ g' =>
    cases g' with
    | zero => rfl
    | succ g'' =>
      have step : remove_lbr_state.go (g'' + 1 + 1) sC1a 0 1
          = remove_lbr_state.go (g'' + 1) sC1b 0 1 := rfl
      rw [step]
      exact goC1b _

/-- Elementwise read of a `List.range`-built list. -/
theorem getD_map_range {α : Type} (cap i : Nat) (f : Nat → α) (d : α)
    (hi : i < cap) : ((List.range cap).map f).getD i d = f i := by
  rw [List.getD_eq_getElem?_getD, List.getElem?_map, List.getElem?_range hi]
  rfl

/-- Reading every position of a list through `getD` rebuilds the list. -/
theorem range_map_getD {α : Type} (l : List α) (d : α) :
    (List.range l.length).map (fun i => l.getD i d) = l := by
  induction l with
  | nil => rfl
  | cons a t ih =>
    rw [List.length_cons, List.range_succ_eq_map, List.map_cons, List.map_map]
    have hc : ((fun i => (a :: t).getD i d) ∘ Nat.succ) = fun i => t.getD i d := by
      funext i
      simp [Function.comp, List.getD_cons_succ]
    rw [List.getD_cons_zero, hc, ih]

/-- The search loop is insensitive to writes that keep the `pid` and `prev`
fields of every node, such as `get_lbr`'s snapshot write. -/
theorem findLoop_update_snap (s : Store) (a : Nat) (g : LbrState → LbrState)
    (hg : ∀ nd, (g nd).pid = nd.pid ∧ (g nd).prev = nd.prev) :
    ∀ f p tmp, findLoop f (updateNode s a g) p tmp = findLoop f s p tmp := by
  intro f
  induction f with
  | zero => intro p tmp; rfl
  | succ f ih =>
    intro p tmp
    have hpid : (readNode (updateNode s a g) tmp).pid = (readNode s tmp).pid := by
      rw [readNode_updateNode]; split
      · next h => rw [h, (hg (readNode s a)).1]
      · rfl
    have hprev : (readNode (updateNode s a g) tmp).prev = (readNode s tmp).prev := by
      rw [readNode_updateNode]; split
      · next h => rw [h, (hg (readNode s a)).2]
      · rfl
    simp only [findLoop, hpid, hprev, head_updateNode]
    by_cases hpidc : (readNode s tmp).pid = p
    · simp [hpidc]
    · simp only [if_neg hpidc]
      by_cases hcond : s.head = some ((readNode s tmp).prev)
      · simp [hcond]
      · simp only [if_neg hcond]
        exact ih p _

/-- `find_lbr_state` is insensitive to writes that keep `pid` and `prev`. -/
theorem find_update_snap (s : Store) (a : Nat) (g : LbrState → LbrState)
    (hg : ∀ nd, (g nd).pid = nd.pid ∧ (g nd).prev = nd.prev) (f p : Nat) :
    find_lbr_state f (updateNode s a g) p = find_lbr_state f s p := by
  unfold find_lbr_state
  rw [head_updateNode]
  cases s.head with
  | none => rfl
  | some h => exact findLoop_update_snap s a g hg f p h

/-!
Claim theorems.
-/

/-- C1: the claim asserts that every sequence of `insert_lbr_state` /
`remove_lbr_state` operations from the empty store keeps the circular
structure consistent.  The code falsifies this: after inserting entry pid 1
(address 0) and its child pid 2 (address 1, `parent` = address 0), removing
the parent never completes — the cascade frees the child, setting
`lbr_state_list` to `NULL`, and the do-while condition
`tmp != lbr_state_list` can never hold again, so `remove_lbr_state` returns
`none` at every fuel, i.e. the sequence has no post-state at all. -/
theorem C1_remove_divergence : ∀ fuel, remove_lbr_state fuel sC1 0 = none := by
  intro fuel
  cases fuel with
  | zero => rfl
  | succ f =>
    have step : remove_lbr_state (f + 1) sC1 0
        = match remove_lbr_state.go f sC1a 0 1 with
          | none => none
          | some s4 => some (freeNode s4 0) := rfl
    rw [step, goC1a f]

/-- C2: the claim asserts that removing an entry with N descendants removes
exactly N+1 entries.  On the store with pid 1 (address 0) and two children
pid 2 (address 1) and pid 3 (address 2), removing address 0 terminates but
frees only addresses 0 and 1: the child at address 2 survives (the scan's
termination test compares against the head pointer, which the cascade had
already moved), still live and with its `parent` pointing at the freed
address 0. -/
theorem C2_remove_misses_child :
    (remove_lbr_state 32 sC2 0).map
      (fun s => (liveAddrs s, (readNode s 2).parent, s.freed))
      = some ([2], some 0, [0, 1]) := by rfl

/-- C3: the claim asserts that a second ENABLE_TRACE for an already-present
pid is rejected with a negative status and inserts no duplicate.  The
dispatcher performs no presence check: two ENABLE_TRACE requests for pid 5
both return status 0 and leave two live entries with pid 5. -/
theorem C3_double_enable_accepted :
    ((device_ioctl 10 2 97 9 IoctlCmd.enableTrace
        (CopyOutcome.ok { lbr_select := 0, pid := 5 }) 0 emptyStore hwC).bind
      (fun r =>
        (device_ioctl 10 2 97 9 IoctlCmd.enableTrace
          (CopyOutcome.ok { lbr_select := 0, pid := 5 }) 0 r.2.1 r.2.2).map
          (fun r2 => (r.1, r2.1,
            (liveAddrs r2.2.1).map (fun a => (readNode r2.2.1 a).pid)))))
      = some (0, 0, [5, 5]) := by rfl

/-- C5: the claim asserts that teardown never accesses an entry's fields
after that entry's storage is released.  The teardown loop of
`libiht_lkm_exit` executes `kfree(tmp); tmp = tmp->prev;`, reading the freed
entry's `prev` field on every iteration: on the store with a parent/child
chain still live it does release both entries exactly once (freed list
`[1, 0]`, no live entries, no cascading scan), but the read-after-free flag
is `true`. -/
theorem C5_exit_reads_freed :
    (libiht_lkm_exit 4 sC1).map (fun r => (liveAddrs r.1, r.1.freed, r.2))
      = some ([], [1, 0], true) := by rfl

/-- C6: the claim asserts that a DUMP_LBR request for an absent pid is
rejected with a negative status.  Running the spec's own scenario —
Enable(100), Disable(100) (store becomes empty), Dump(100) — the third
request returns status 0 (success): `dump_lbr` detects the miss but is
`void`, so the dispatcher cannot report it. -/
theorem C6_dump_not_found_succeeds :
    ((device_ioctl 10 2 97 9 IoctlCmd.enableTrace
        (CopyOutcome.ok { lbr_select := 0, pid := 100 }) 0 emptyStore hwC).bind
      (fun r1 =>
        (device_ioctl 10 2 97 9 IoctlCmd.disableTrace
          (CopyOutcome.ok { lbr_select := 0, pid := 100 }) 0 r1.2.1 r1.2.2).bind
          (fun r2 =>
            (device_ioctl 10 2 97 9 IoctlCmd.dumpLbr
              (CopyOutcome.ok { lbr_select := 0, pid := 100 }) 0 r2.2.1 r2.2.2).map
              (fun r3 => (r1.1, r2.1, r3.1, liveAddrs r2.2.1)))))
      = some (0, 0, 0, []) := by rfl

/-- C7: a short/partial `copy_from_user` transfer makes the dispatcher return
-1 before touching anything, and an unrecognized operation code makes it
return -EINVAL, in both cases with the store and the hardware registers
unchanged. -/
theorem C7_reject_before_mutation :
    (∀ (fuel cap dflt cur param : Nat) (cmd : IoctlCmd) (s : Store) (hw : Hw),
      device_ioctl fuel cap dflt cur cmd CopyOutcome.shortCopy param s hw
        = some (-1, s, hw) ∧ (-1 : Int) < 0)
    ∧
    (∀ (fuel cap dflt cur param code : Nat) (req : IoctlRequest) (s : Store)
        (hw : Hw),
      device_ioctl fuel cap dflt cur (IoctlCmd.other code)
          (CopyOutcome.ok req) param s hw
        = some (-22, s, hw) ∧ (-22 : Int) < 0) := by
  constructor
  · intro fuel cap dflt cur param cmd s hw
    exact ⟨rfl, by norm_num⟩
  · intro fuel cap dflt cur param code req s hw
    exact ⟨rfl, by norm_num⟩

/-- C8: the claim asserts that a successful ENABLE_TRACE loads the hardware
registers from the newly created TraceState.  With `request.pid = 0` (caller
pid 7) the entry is created with pid 7 and the requested mask 3, but the
dispatcher then calls `put_lbr(request.pid)`, i.e. `put_lbr(0)`: no entry has
pid 0, so the hardware registers are left completely unchanged. -/
theorem C8_enable_pid_zero_skips_hw_load :
    (device_ioctl 10 2 97 7 IoctlCmd.enableTrace
        (CopyOutcome.ok { lbr_select := 3, pid := 0 }) 0 emptyStore hwC).map
      (fun r => (r.1, r.2.2,
        (liveAddrs r.2.1).map
          (fun a => ((readNode r.2.1 a).pid, (readNode r.2.1 a).lbr_select))))
      = some (0, hwC, [(7, 3)]) := by rfl

/-- C9 counterexample: the claim asserts that after `insert_lbr_state e`,
`find_lbr_state e.pid` returns `e`, for every store.  Insert a second entry
with pid 5 (it gets the fresh address `sH.nextAddr` = 1) into the store whose
single (anchor) entry already has pid 5: the backward search checks the
anchor first and returns address 0, not the newly inserted address 1. -/
theorem C9_counterexample :
    find_lbr_state 3 (insert_lbr_state sH (mkSt 5 none)) 5
        ≠ some (some sH.nextAddr) ∧
    find_lbr_state 3 (insert_lbr_state sH (mkSt 5 none)) 5 = some (some 0) := by
  exact ⟨by decide, rfl⟩

/-- C4: save-then-restore round trip.  If `find_lbr_state` locates an entry
for the pid, a context-switch leave (`save_lbr`, which reads the hardware
registers into the entry via `get_lbr`) followed by an enter (`restore_lbr`,
which writes them back via `put_lbr`) with no hardware mutation in between
reproduces the hardware register file exactly: selection register,
top-of-stack, and all `capacity` from/to pairs. -/
theorem C4_save_restore_roundtrip (f cap pid a : Nat) (s : Store) (hw : Hw)
    (hfind : find_lbr_state f s pid = some (some a))
    (hfl : hw.fromRegs.length = cap) (htl : hw.toRegs.length = cap) :
    save_lbr f cap s hw pid = some (updateNode s a (snapOf cap hw)) ∧
    restore_lbr f cap (updateNode s a (snapOf cap hw)) hw pid = some hw := by
  have hsnap : ∀ nd : LbrState,
      (snapOf cap hw nd).pid = nd.pid ∧ (snapOf cap hw nd).prev = nd.prev := by
    intro nd; exact ⟨rfl, rfl⟩
  have hfind2 : find_lbr_state f (updateNode s a (snapOf cap hw)) pid
      = some (some a) := by
    rw [find_update_snap s a (snapOf cap hw) hsnap, hfind]
  have hread : readNode (updateNode s a (snapOf cap hw)) a
      = snapOf cap hw (readNode s a) := by
    rw [readNode_updateNode]; simp
  constructor
  · unfold save_lbr get_lbr
    rw [hfind]
  · unfold restore_lbr put_lbr
    simp only [hfind2]
    rw [hread]
    have hfrom : (List.range cap).map
        (fun i => ((snapOf cap hw (readNode s a)).entries.getD i default).fromAddr)
        = hw.fromRegs := by
      have h1 : ∀ i ∈ List.range cap,
          ((snapOf cap hw (readNode s a)).entries.getD i default).fromAddr
            = hw.fromRegs.getD i 0 := by
        intro i hi
        have hic : i < cap := List.mem_range.mp hi
        show (((List.range cap).map
          (fun j => ({ fromAddr := hw.fromRegs.getD j 0,
                       toAddr := hw.toRegs.getD j 0 } : LbrStackEntry))).getD
            i default).fromAddr = hw.fromRegs.getD i 0
        rw [getD_map_range cap i _ default hic]
      rw [List.map_congr_left h1]
      subst hfl
      exact range_map_getD hw.fromRegs 0
    have hto : (List.range cap).map
        (fun i => ((snapOf cap hw (readNode s a)).entries.getD i default).toAddr)
        = hw.toRegs := by
      have h1 : ∀ i ∈ List.range cap,
          ((snapOf cap hw (readNode s a)).entries.getD i default).toAddr
            = hw.toRegs.getD i 0 := by
        intro i hi
        have hic : i < cap := List.mem_range.mp hi
        show (((List.range cap).map
          (fun j => ({ fromAddr := hw.fromRegs.getD j 0,
                       toAddr := hw.toRegs.getD j 0 } : LbrStackEntry))).getD
            i default).toAddr = hw.toRegs.getD i 0
        rw [getD_map_range cap i _ default hic]
      rw [List.map_congr_left h1]
      subst htl
      exact range_map_getD hw.toRegs 0
    have hsel : (snapOf cap hw (readNode s a)).lbr_select = hw.lbrSelect := rfl
    have htos : (snapOf cap hw (readNode s a)).lbr_tos = hw.lbrTos := rfl
    rw [hsel, htos, hfrom, hto]

/-- Witness for C4 at a concrete input: the store `sH` holds an entry for
pid 5 at address 0, the register file `hwC` has capacity 2, and the
round trip restores `hwC` exactly. -/
theorem C4_save_restore_roundtrip_witness :
    find_lbr_state 2 sH 5 = some (some 0) ∧
    hwC.fromRegs.length = 2 ∧ hwC.toRegs.length = 2 ∧
    (save_lbr 2 2 sH hwC 5 = some (updateNode sH 0 (snapOf 2 hwC)) ∧
     restore_lbr 2 2 (updateNode sH 0 (snapOf 2 hwC)) hwC 5 = some hwC) :=
  ⟨rfl, rfl, rfl, C4_save_restore_roundtrip 2 2 5 0 sH hwC rfl rfl rfl⟩

theorem readNode_headAdjust (s : Store) (x b : Nat) :
    readNode (headAdjust s x) b = readNode s b := by
  unfold headAdjust
  split <;> rfl

theorem head_headAdjust_of_ne (s : Store) (x : Nat) (hne : s.head ≠ some x) :
    (headAdjust s x).head = s.head := by
  unfold headAdjust
  rw [if_neg hne]

theorem head_headAdjust_of_eq (s : Store) (x : Nat) (hh : s.head = some x) :
    (headAdjust s x).head
      = (if (readNode s x).next = x then none else some ((readNode s x).next)) := by
  unfold headAdjust
  rw [if_pos hh]

theorem head_removeUnlink (s : Store) (x : Nat) :
    (removeUnlink s x).head = (headAdjust s x).head := rfl

theorem readNode_removeUnlink_parent (s : Store) (x b : Nat) :
    (readNode (removeUnlink s x) b).parent = (readNode s b).parent := by
  simp only [removeUnlink, parent_writePrev, parent_writeNext, readNode_headAdjust]

/-- The `prev` field after the unlink: the victim's successor now points back
at the victim's predecessor; every other node's `prev` is untouched. -/
theorem prev_removeUnlink (s : Store) (x b : Nat) :
    (readNode (removeUnlink s x) b).prev
      = if b = (readNode s x).next then (readNode s x).prev
        else (readNode s b).prev := by
  simp only [removeUnlink, prev_writePrev, prev_writeNext, readNode_headAdjust]

/-- One-step unfolding of the search loop. -/
theorem findLoop_succ (f : Nat) (s : Store) (p tmp : Nat) :
    findLoop (f + 1) s p tmp
      = if (readNode s tmp).pid = p then some (some tmp)
        else if s.head = some ((readNode s tmp).prev) then some none
        else findLoop f s p ((readNode s tmp).prev) := rfl

/-- One-step unfolding of `remove_lbr_state` when the list is non-empty. -/
theorem remove_succ_of_head_some (f : Nat) (s : Store) (x h0 : Nat)
    (hh : s.head = some h0) :
    remove_lbr_state (f + 1) s x
      = (match (removeUnlink s x).head with
         | none => some (freeNode (removeUnlink s x) x)
         | some h2 =>
           match remove_lbr_state.go f (removeUnlink s x) x h2 with
           | none => none
           | some s4 => some (freeNode s4 x)) := by
  have step : remove_lbr_state (f + 1) s x
      = (match s.head with
         | none => some s
         | some _ =>
           match (removeUnlink s x).head with
           | none => some (freeNode (removeUnlink s x) x)
           | some h2 =>
             match remove_lbr_state.go f (removeUnlink s x) x h2 with
             | none => none
             | some s4 => some (freeNode s4 x)) := rfl
  rw [step, hh]

/-- The non-empty-store branch of `insert_lbr_state`, written out. -/
theorem insert_eq_of_head_some (s : Store) (h : Nat) (nd : LbrState)
    (hh : s.head = some h) :
    insert_lbr_state s nd
      = writeNext (writePrev (writePrev (writeNext (allocNode s nd)
          ((readNode (allocNode s nd) h).prev) s.nextAddr)
          s.nextAddr ((readNode (allocNode s nd) h).prev)) h s.nextAddr)
          s.nextAddr h := by
  have ha : (allocNode s nd).head = some h := hh
  simp only [insert_lbr_state]
  rw [ha]

/-- The empty-store branch of `insert_lbr_state`, written out. -/
theorem insert_eq_of_head_none (s : Store) (nd : LbrState)
    (hh : s.head = none) :
    insert_lbr_state s nd
      = setHead (writeNext (writePrev (allocNode s nd) s.nextAddr s.nextAddr)
          s.nextAddr s.nextAddr) (some s.nextAddr) := by
  have ha : (allocNode s nd).head = none := hh
  simp only [insert_lbr_state]
  rw [ha]

/-- C10: on a non-empty store (with the usual freshness of the next address),
`insert_lbr_state` keeps the anchor pointer unchanged, makes the new entry the
anchor's predecessor, redirects the former tail's `next` to the new entry, and
leaves every other entry's record untouched. -/
theorem C10_insert_preserves_anchor (s : Store) (h : Nat) (nd : LbrState)
    (hh : s.head = some h) (hne : h ≠ s.nextAddr)
    (hpne : (readNode s h).prev ≠ s.nextAddr) :
    (insert_lbr_state s nd).head = some h ∧
    (readNode (insert_lbr_state s nd) h).prev = s.nextAddr ∧
    (readNode (insert_lbr_state s nd) ((readNode s h).prev)).next = s.nextAddr ∧
    ∀ a, a ≠ h → a ≠ (readNode s h).prev → a ≠ s.nextAddr →
      readNode (insert_lbr_state s nd) a = readNode s a := by
  have key := insert_eq_of_head_some s h nd hh
  have hp0 : (readNode (allocNode s nd) h).prev = (readNode s h).prev := by
    rw [readNode_allocNode, if_neg hne]
  rw [hp0] at key
  refine ⟨?_, ?_, ?_, ?_⟩
  · rw [key]
    exact hh
  · rw [key, prev_writeNext, prev_writePrev, if_pos rfl]
  · rw [key, next_writeNext, if_neg hpne, next_writePrev, next_writePrev,
      next_writeNext, if_pos rfl]
  · intro a ha hahp hana
    rw [key, writeNext, readNode_updateNode, if_neg hana, writePrev,
      readNode_updateNode, if_neg ha, writePrev, readNode_updateNode,
      if_neg hana, writeNext, readNode_updateNode, if_neg hahp,
      readNode_allocNode, if_neg hana]

/-- Witness for C10 at a concrete input: the two-entry store `sW2` has anchor
address 0 and tail address 1; inserting a fresh record keeps the anchor,
links address 2 as the anchor's predecessor and the old tail's successor, and
leaves other records unchanged. -/
theorem C10_insert_preserves_anchor_witness :
    sW2.head = some 0 ∧ (0 : Nat) ≠ sW2.nextAddr ∧
    (readNode sW2 0).prev ≠ sW2.nextAddr ∧
    ((insert_lbr_state sW2 (mkSt 9 none)).head = some 0 ∧
     (readNode (insert_lbr_state sW2 (mkSt 9 none)) 0).prev = sW2.nextAddr ∧
     (readNode (insert_lbr_state sW2 (mkSt 9 none))
        ((readNode sW2 0).prev)).next = sW2.nextAddr ∧
     ∀ a, a ≠ 0 → a ≠ (readNode sW2 0).prev → a ≠ sW2.nextAddr →
       readNode (insert_lbr_state sW2 (mkSt 9 none)) a = readNode sW2 a) :=
  ⟨rfl, by decide, by decide,
    C10_insert_preserves_anchor sW2 0 (mkSt 9 none) rfl (by decide) (by decide)⟩

theorem readNode_setHead (s : Store) (o : Option Nat) (b : Nat) :
    readNode (setHead s o) b = readNode s b := rfl

theorem head_setHead (s : Store) (o : Option Nat) : (setHead s o).head = o := rfl

/-- Reduce `find_lbr_state` to its loop once the head is known. -/
theorem find_head_some (f : Nat) (s : Store) (p h : Nat) (hh : s.head = some h) :
    find_lbr_state f s p = findLoop f s p h := by
  unfold find_lbr_state
  rw [hh]

/-- A successful association-list lookup returns the value of some stored
pair. -/
theorem lookup_mem_val {α β : Type} [BEq α] (l : List (α × β)) (a : α) (b : β)
    (h : l.lookup a = some b) : ∃ q ∈ l, q.2 = b := by
  induction l with
  | nil => simp [List.lookup] at h
  | cons hd tl ih =>
    obtain ⟨k, v⟩ := hd
    rw [List.lookup] at h
    by_cases hq : (a == k) = true
    · rw [hq] at h
      refine ⟨(k, v), List.mem_cons_self _ _, ?_⟩
      simpa using h
    · rw [Bool.not_eq_true] at hq
      rw [hq] at h
      obtain ⟨q, hqmem, hqv⟩ := ih h
      exact ⟨q, List.mem_cons_of_mem _ hqmem, hqv⟩

/-- The `next` field after the unlink: the victim's predecessor now points
ahead at the victim's successor; every other node's `next` is untouched. -/
theorem next_removeUnlink (s : Store) (x b : Nat) :
    (readNode (removeUnlink s x) b).next
      = if b = (readNode s x).prev then (readNode s x).next
        else (readNode s b).next := by
  simp only [removeUnlink, next_writePrev, next_writeNext, readNode_headAdjust]

/-- One-step unfolding of `remove_lbr_state` on an empty list: the source
returns early without freeing anything. -/
theorem remove_succ_of_head_none (f : Nat) (s : Store) (x : Nat)
    (hh : s.head = none) : remove_lbr_state (f + 1) s x = some s := by
  have step : remove_lbr_state (f + 1) s x
      = (match s.head with
         | none => some s
         | some _ =>
           match (removeUnlink s x).head with
           | none => some (freeNode (removeUnlink s x) x)
           | some h2 =>
             match remove_lbr_state.go f (removeUnlink s x) x h2 with
             | none => none
             | some s4 => some (freeNode s4 x)) := rfl
  rw [step, hh]

/-- One-step unfolding of the child-scan loop. -/
theorem go_succ (f : Nat) (s : Store) (x tmp : Nat) :
    remove_lbr_state.go (f + 1) s x tmp
      = (match (if (readNode s tmp).parent = some x
                then remove_lbr_state f s tmp else some s) with
         | none => none
         | some s1 =>
           if s1.head = some ((readNode s1 tmp).prev) then some s1
           else remove_lbr_state.go f s1 x ((readNode s1 tmp).prev)) := rfl

/-- A trap set for the removal cascade: the head lies in `A`, and `A` is
closed under both `prev` and `next` links.  Every write the cascade performs
stores a value read from a member of `A`, so this predicate is an invariant
of `remove_lbr_state` no matter how many children are (recursively) removed,
and the search can never escape `A`. -/
def Closed (A : List Nat) (s : Store) : Prop :=
  (∀ h, s.head = some h → h ∈ A) ∧
  (∀ a ∈ A, (readNode s a).prev ∈ A) ∧
  (∀ a ∈ A, (readNode s a).next ∈ A)

theorem closed_freeNode (A : List Nat) (s : Store) (y : Nat)
    (h : Closed A s) : Closed A (freeNode s y) := by
  obtain ⟨h1, h2, h3⟩ := h
  refine ⟨?_, ?_, ?_⟩
  · intro hg hge
    rw [head_freeNode] at hge
    exact h1 hg hge
  · intro a ha
    rw [readNode_freeNode]
    exact h2 a ha
  · intro a ha
    rw [readNode_freeNode]
    exact h3 a ha

/-- Unlinking a member of the trap set keeps the set closed: the victim's
predecessor and successor (the only nodes written) both lie in `A`, and the
values written into them (`prev` and `next` of the victim) lie in `A` too. -/
theorem closed_removeUnlink (A : List Nat) (s : Store) (y : Nat)
    (hcl : Closed A s) (hy : y ∈ A) : Closed A (removeUnlink s y) := by
  obtain ⟨h1, h2, h3⟩ := hcl
  refine ⟨?_, ?_, ?_⟩
  · intro hg hge
    rw [head_removeUnlink] at hge
    by_cases hhy : s.head = some y
    · rw [head_headAdjust_of_eq s y hhy] at hge
      by_cases hself : (readNode s y).next = y
      · rw [if_pos hself] at hge
        exact Option.noConfusion hge
      · rw [if_neg hself] at hge
        exact (Option.some.inj hge) ▸ h3 y hy
    · rw [head_headAdjust_of_ne s y hhy] at hge
      exact h1 hg hge
  · intro a ha
    rw [prev_removeUnlink]
    by_cases han : a = (readNode s y).next
    · rw [if_pos han]
      exact h2 y hy
    · rw [if_neg han]
      exact h2 a ha
  · intro a ha
    rw [next_removeUnlink]
    by_cases hap : a = (readNode s y).prev
    · rw [if_pos hap]
      exact h3 y hy
    · rw [if_neg hap]
      exact h3 a ha

/-- The cascade of `remove_lbr_state`, and its child-scan loop, preserve any
trap set that contains the victim (respectively the cursor): proved by mutual
induction on the fuel, covering arbitrarily deep recursive child removals,
re-removals of already freed entries, and cursor steps through freed
entries. -/
theorem removeGo_closed (A : List Nat) :
    ∀ fuel : Nat,
      (∀ s y s2, Closed A s → y ∈ A →
        remove_lbr_state fuel s y = some s2 → Closed A s2) ∧
      (∀ s x tmp s2, Closed A s → tmp ∈ A →
        remove_lbr_state.go fuel s x tmp = some s2 → Closed A s2) := by
  intro fuel
  induction fuel with
  | zero =>
    constructor
    · intro s y s2 _ _ h
      exact Option.noConfusion h
    · intro s x tmp s2 _ _ h
      exact Option.noConfusion h
  | succ fuel ih =>
    obtain ⟨ihr, ihg⟩ := ih
    constructor
    · intro s y s2 hcl hy hrem
      cases hhead : s.head with
      | none =>
        rw [remove_succ_of_head_none fuel s y hhead] at hrem
        exact (Option.some.inj hrem) ▸ hcl
      | some h =>
        rw [remove_succ_of_head_some fuel s y h hhead] at hrem
        have hclu : Closed A (removeUnlink s y) := closed_removeUnlink A s y hcl hy
        cases hhu : (removeUnlink s y).head with
        | none =>
          rw [hhu] at hrem
          change some (freeNode (removeUnlink s y) y) = some s2 at hrem
          exact (Option.some.inj hrem) ▸ closed_freeNode A _ y hclu
        | some h2 =>
          rw [hhu] at hrem
          change (match remove_lbr_state.go fuel (removeUnlink s y) y h2 with
            | none => none
            | some s4 => some (freeNode s4 y)) = some s2 at hrem
          cases hgo : remove_lbr_state.go fuel (removeUnlink s y) y h2 with
          | none =>
            rw [hgo] at hrem
            exact Option.noConfusion hrem
          | some s4 =>
            rw [hgo] at hrem
            have hcl4 : Closed A s4 :=
              ihg (removeUnlink s y) y h2 s4 hclu (hclu.1 h2 hhu) hgo
            exact (Option.some.inj hrem) ▸ closed_freeNode A s4 y hcl4
    · intro s x tmp s2 hcl htmp hgo
      rw [go_succ] at hgo
      by_cases hpar : (readNode s tmp).parent = some x
      · rw [if_pos hpar] at hgo
        cases hr : remove_lbr_state fuel s tmp with
        | none =>
          rw [hr] at hgo
          exact Option.noConfusion hgo
        | some s1 =>
          rw [hr] at hgo
          change (if s1.head = some ((readNode s1 tmp).prev) then some s1
            else remove_lbr_state.go fuel s1 x ((readNode s1 tmp).prev))
              = some s2 at hgo
          have hcl1 : Closed A s1 := ihr s tmp s1 hcl htmp hr
          by_cases hstop : s1.head = some ((readNode s1 tmp).prev)
          · rw [if_pos hstop] at hgo
            exact (Option.some.inj hgo) ▸ hcl1
          · rw [if_neg hstop] at hgo
            exact ihg s1 x _ s2 hcl1 (hcl1.2.1 tmp htmp) hgo
      · rw [if_neg hpar] at hgo
        change (if s.head = some ((readNode s tmp).prev) then some s
          else remove_lbr_state.go fuel s x ((readNode s tmp).prev))
            = some s2 at hgo
        by_cases hstop : s.head = some ((readNode s tmp).prev)
        · rw [if_pos hstop] at hgo
          exact (Option.some.inj hgo) ▸ hcl
        · rw [if_neg hstop] at hgo
          exact ihg s x _ s2 hcl (hcl.2.1 tmp htmp) hgo

/-- C9 amended: (1) after `insert_lbr_state e`, `find_lbr_state e.pid`
returns the new entry provided the anchor's pid differs from `e.pid` — in
particular whenever `e.pid` is not already present (the backward search
checks the anchor first, so an anchor carrying the same pid shadows the new
entry, as the counterexample shows); (2) after a terminating
`remove_lbr_state e` on a store whose circular structure around `e` is
consistent — `e`'s two links point at other entries forming a set `A` that
is closed under `prev` and `next`, and within `A` only `e`'s successor
references `e` via `prev` and only its predecessor via `next` — the search
never returns the removed entry, for any pid and any fuel.  No restriction
is placed on `parent` fields: the cascade may recursively remove arbitrarily
many children (as on the C2 input), and the trap-set invariant shows the
search still cannot reach `e`. -/
theorem C9_find_after_insert_remove :
    (∀ (s : Store) (nd : LbrState),
      (∀ h, s.head = some h → (readNode s h).pid ≠ nd.pid ∧ h ≠ s.nextAddr) →
      find_lbr_state 2 (insert_lbr_state s nd) nd.pid = some (some s.nextAddr))
    ∧
    (∀ (s : Store) (x h0 : Nat) (A : List Nat) (fuel : Nat) (s2 : Store),
      s.head = some h0 →
      x ∉ A →
      ((h0 = x ∧ (readNode s x).next = x) ∨
        ((h0 = x ∨ h0 ∈ A) ∧ (readNode s x).next ∈ A ∧ (readNode s x).prev ∈ A ∧
         (∀ a ∈ A, (readNode s a).prev = x → a = (readNode s x).next) ∧
         (∀ a ∈ A, (readNode s a).prev = x ∨ (readNode s a).prev ∈ A) ∧
         (∀ a ∈ A, (readNode s a).next = x → a = (readNode s x).prev) ∧
         (∀ a ∈ A, (readNode s a).next = x ∨ (readNode s a).next ∈ A))) →
      remove_lbr_state fuel s x = some s2 →
      ∀ f p, find_lbr_state f s2 p ≠ some (some x)) := by
  constructor
  · intro s nd hcond
    cases hh : s.head with
    | none =>
      have key := insert_eq_of_head_none s nd hh
      have hhead : (insert_lbr_state s nd).head = some s.nextAddr := by
        rw [key, head_setHead]
      have hpid : (readNode (insert_lbr_state s nd) s.nextAddr).pid = nd.pid := by
        rw [key, readNode_setHead, pid_writeNext, pid_writePrev,
          readNode_allocNode, if_pos rfl]
      rw [find_head_some 2 _ nd.pid s.nextAddr hhead,
        show (2 : Nat) = 1 + 1 from rfl, findLoop_succ, hpid, if_pos rfl]
    | some h =>
      obtain ⟨hpne, hne⟩ := hcond h hh
      have key := insert_eq_of_head_some s h nd hh
      have hp0 : (readNode (allocNode s nd) h).prev = (readNode s h).prev := by
        rw [readNode_allocNode, if_neg hne]
      rw [hp0] at key
      have hhead : (insert_lbr_state s nd).head = some h := by
        rw [key]; exact hh
      have hpid1 : (readNode (insert_lbr_state s nd) h).pid
          = (readNode s h).pid := by
        rw [key, pid_writeNext, pid_writePrev, pid_writePrev, pid_writeNext,
          readNode_allocNode, if_neg hne]
      have hprev1 : (readNode (insert_lbr_state s nd) h).prev = s.nextAddr := by
        rw [key, prev_writeNext, prev_writePrev, if_pos rfl]
      have hpidna : (readNode (insert_lbr_state s nd) s.nextAddr).pid
          = nd.pid := by
        rw [key, pid_writeNext, pid_writePrev, pid_writePrev, pid_writeNext,
          readNode_allocNode, if_pos rfl]
      have hnosome : ¬((insert_lbr_state s nd).head = some s.nextAddr) := by
        rw [hhead]
        intro hc
        exact hne (Option.some.inj hc)
      rw [find_head_some 2 _ nd.pid h hhead, show (2 : Nat) = 1 + 1 from rfl,
        findLoop_succ, hpid1, if_neg hpne, hprev1, if_neg hnosome,
        findLoop_succ, hpidna, if_pos rfl]
  · intro s x h0 A fuel s2 hh hxA hstruct hrem f p
    cases fuel with
    | zero => exact Option.noConfusion hrem
    | succ fp =>
      rw [remove_succ_of_head_some fp s x h0 hh] at hrem
      rcases hstruct with ⟨hh0x, hnx⟩ |
        ⟨hh0A, hnA, hpA, huniqp, hclosep, huniqn, hclosen⟩
      · have hsu : (removeUnlink s x).head = none := by
          rw [head_removeUnlink, head_headAdjust_of_eq s x (by rw [hh, hh0x]),
            if_pos hnx]
        rw [hsu] at hrem
        have hs2 : s2 = freeNode (removeUnlink s x) x := by
          injection hrem with h'
          exact h'.symm
        have hs2h : s2.head = none := by
          rw [hs2, head_freeNode, hsu]
        unfold find_lbr_state
        rw [hs2h]
        simp
      · have hclu : Closed A (removeUnlink s x) := by
          refine ⟨?_, ?_, ?_⟩
          · intro hg hge
            rw [head_removeUnlink] at hge
            by_cases hhx : s.head = some x
            · rw [head_headAdjust_of_eq s x hhx] at hge
              have hxne : (readNode s x).next ≠ x := fun hc => hxA (hc ▸ hnA)
              rw [if_neg hxne] at hge
              exact (Option.some.inj hge) ▸ hnA
            · rw [head_headAdjust_of_ne s x hhx, hh] at hge
              have hg0 : h0 = hg := Option.some.inj hge
              rcases hh0A with he | hm
              · exact absurd (by rw [hh, he]) hhx
              · exact hg0 ▸ hm
          · intro a ha
            rw [prev_removeUnlink]
            by_cases han : a = (readNode s x).next
            · rw [if_pos han]
              exact hpA
            · rw [if_neg han]
              rcases hclosep a ha with hpx | hpin
              · exact absurd (huniqp a ha hpx) han
              · exact hpin
          · intro a ha
            rw [next_removeUnlink]
            by_cases hap : a = (readNode s x).prev
            · rw [if_pos hap]
              exact hnA
            · rw [if_neg hap]
              rcases hclosen a ha with hnx2 | hnin
              · exact absurd (huniqn a ha hnx2) hap
              · exact hnin
        cases hhu : (removeUnlink s x).head with
        | none =>
          rw [hhu] at hrem
          have hs2 : s2 = freeNode (removeUnlink s x) x := by
            injection hrem with h'
            exact h'.symm
          have hs2h : s2.head = none := by
            rw [hs2, head_freeNode, hhu]
          unfold find_lbr_state
          rw [hs2h]
          simp
        | some h2 =>
          rw [hhu] at hrem
          change (match remove_lbr_state.go fp (removeUnlink s x) x h2 with
            | none => none
            | some s4 => some (freeNode s4 x)) = some s2 at hrem
          cases hgo : remove_lbr_state.go fp (removeUnlink s x) x h2 with
          | none =>
            rw [hgo] at hrem
            exact Option.noConfusion hrem
          | some s4 =>
            rw [hgo] at hrem
            have hcl4 : Closed A s4 :=
              (removeGo_closed A fp).2 (removeUnlink s x) x h2 s4 hclu
                (hclu.1 h2 hhu) hgo
            have hs2 : s2 = freeNode s4 x := by
              injection hrem with h'
              exact h'.symm
            have hcl2 : Closed A s2 := hs2 ▸ closed_freeNode A s4 x hcl4
            exact find_lbr_state_closed A s2 p x hxA hcl2.2.1 hcl2.1 f

/-- The store `sC2` after `remove_lbr_state` removed address 0 (a terminating
cascading removal: the cascade also removed the child at address 1, while the
child at address 2 survived — see C2). -/
def sC2r : Store := (remove_lbr_state 32 sC2 0).getD emptyStore

/-- Witness for C9 at concrete inputs: inserting pid 7 into `sH` (anchor pid
5 at address 0) is found at the fresh address 1; removing address 0 from
`sC2` — a cascading removal with two children that terminates — yields
`sC2r`, on which no search answers the removed address 0. -/
theorem C9_find_after_insert_remove_witness :
    (find_lbr_state 2 (insert_lbr_state sH (mkSt 7 none)) 7
        = some (some sH.nextAddr)) ∧
    (remove_lbr_state 32 sC2 0 = some sC2r ∧
     find_lbr_state 3 sC2r 3 ≠ some (some 0)) :=
  ⟨C9_find_after_insert_remove.1 sH (mkSt 7 none)
      (fun h hh => by
        injection hh with h'
        subst h'
        exact ⟨by decide, by decide⟩),
   rfl,
   C9_find_after_insert_remove.2 sC2 0 0 [1, 2] 32 sC2r rfl
     (by decide)
     (Or.inr (by decide))
     rfl 3 3⟩
